import Mathlib

/-!
Verification of the RAG pipeline of a personal-portfolio repository.

The development shallowly embeds the TypeScript sources:
* `DocumentProcessor` (src/lib/rag/document-processor.ts): text normalization,
  sentence-based chunking with word overlap, markdown header splitting,
  and `processMarkdown` chunk-index bookkeeping.
* `RAGService` (rag service module): fallback context selection from structured
  content, vector-store search with degradation, and the query orchestrator.

JavaScript string and array operations are modelled on `List Char` so that all
definitions are executable and all properties are provable by induction.
Strings are assumed ASCII (the repository's content and queries are ASCII).
-/

namespace Portfolio

/-! ## JavaScript-style primitive operations -/

/-- The apostrophe character, used to assemble string literals from the source. -/
def apos : String := ⟨[Char.ofNat 39]⟩

/-- JavaScript whitespace class membership for regex white-space escape (ASCII part). -/
def jsIsWs (c : Char) : Bool :=
  c = ' ' ∨ c = '\t' ∨ c = '\n' ∨ c = '\r' ∨ c = Char.ofNat 11 ∨ c = Char.ofNat 12

/-- JavaScript `toLowerCase` on one character (ASCII). -/
def jsToLowerChar (c : Char) : Char :=
  if 'A' ≤ c ∧ c ≤ 'Z' then Char.ofNat (c.toNat + 32) else c

/-- JavaScript `String.prototype.toLowerCase` (ASCII). -/
def jsToLower (s : String) : String := ⟨s.data.map jsToLowerChar⟩

/-- Whether the first list is an initial segment of the second. -/
def listStartsWith : List Char → List Char → Bool
  | [], _ => true
  | _ :: _, [] => false
  | a :: as, b :: bs => a = b && listStartsWith as bs

/-- Whether the first list occurs contiguously inside the second
(JavaScript `String.prototype.includes`). -/
def listContainsSeg : List Char → List Char → Bool
  | needle, [] => listStartsWith needle []
  | needle, c :: rest => listStartsWith needle (c :: rest) || listContainsSeg needle rest

/-- JavaScript `hay.includes(needle)`. -/
def jsIncludes (hay needle : String) : Bool := listContainsSeg needle.data hay.data

/-- Characters kept by the normalization regex replace that deletes
everything except lower-case letters and digits. -/
def isLowerAlnum (c : Char) : Bool := ('a' ≤ c ∧ c ≤ 'z') || ('0' ≤ c ∧ c ≤ '9')

/-- `s.replace(nonAlnumClass, '')` applied after lower-casing: keep only
lower-case letters and digits. -/
def normAlnum (s : String) : String := ⟨s.data.filter isLowerAlnum⟩

/-- JavaScript `String.prototype.split` with a single-character separator:
keeps empty fields, `"".split(sep) = [""]`. -/
def jsSplitChar (sep : Char) : List Char → List (List Char)
  | [] => [[]]
  | c :: rest =>
    if c = sep then [] :: jsSplitChar sep rest
    else
      match jsSplitChar sep rest with
      | [] => [[c]]
      | w :: ws => (c :: w) :: ws

/-- JavaScript `Array.prototype.join` with a single-character separator. -/
def joinChar (sep : Char) : List (List Char) → List Char
  | [] => []
  | [w] => w
  | w :: w' :: ws => w ++ sep :: joinChar sep (w' :: ws)

/-- JavaScript `arr.slice(-k)`: the trailing `k` elements, the whole array
when `k = 0` (since `slice(-0)` is `slice(0)`) or when `k` exceeds the length. -/
def jsSliceLast (k : Nat) (l : List α) : List α :=
  if k = 0 then l else l.drop (l.length - k)

/-- Trim JavaScript whitespace from both ends of a character list. -/
def trimChars (l : List Char) : List Char :=
  ((l.dropWhile jsIsWs).reverse.dropWhile jsIsWs).reverse

/-- JavaScript `String.prototype.trim`. -/
def jsTrim (s : String) : String := ⟨trimChars s.data⟩

/-! ## DocumentProcessor: normalization and sentence splitting -/

/-- One-pass scanner replacing each run of newlines by the run capped at two
newlines; a run of one or two newlines is unchanged and a run of three or
more becomes exactly two, which is the regex replace of newline-runs in
`chunkText`. The counter carries the length of the pending newline run. -/
def collapseNewlinesAux : List Char → Nat → List Char
  | [], run => List.replicate (min run 2) '\n'
  | c :: rest, run =>
    if c = '\n' then collapseNewlinesAux rest (run + 1)
    else List.replicate (min run 2) '\n' ++ c :: collapseNewlinesAux rest 0

/-- Replace runs of three or more newlines by exactly two
(the regex replace of newline-runs in `chunkText`). -/
def collapseNewlines (l : List Char) : List Char :=
  collapseNewlinesAux l 0

/-- One-pass scanner replacing each run of whitespace by a single space; the
flag records whether the scanner is inside a whitespace run. -/
def collapseWsAux : List Char → Bool → List Char
  | [], _ => []
  | c :: rest, inRun =>
    if jsIsWs c then
      if inRun then collapseWsAux rest true else ' ' :: collapseWsAux rest true
    else c :: collapseWsAux rest false

/-- Replace each run of whitespace by a single space
(the second regex replace in `chunkText`). -/
def collapseWs (l : List Char) : List Char :=
  collapseWsAux l false

/-- The text cleanup at the start of `chunkText`: collapse newline runs,
collapse whitespace runs to single spaces, then trim. -/
def normalizeText (s : String) : String :=
  jsTrim ⟨collapseWs (collapseNewlines s.data)⟩

/-- Sentence-terminating punctuation of the sentence regex. -/
def isTerminalPunct (c : Char) : Bool := c = '.' || c = '!' || c = '?'

/-- One-pass scanner computing the global matches of the sentence regex
(one or more non-terminal characters followed by one or more terminal
characters). The two accumulators carry, reversed, the non-terminal body and
the terminal run of the match in progress. Terminal characters that cannot
start a match are skipped, and trailing text with no terminal punctuation is
not matched. -/
def sentAux : List Char → List Char → List Char → List (List Char)
  | [], body, punct =>
    if body ≠ [] ∧ punct ≠ [] then [body.reverse ++ punct.reverse] else []
  | c :: rest, body, punct =>
    if isTerminalPunct c then
      if body = [] then sentAux rest [] []
      else sentAux rest body (c :: punct)
    else
      if punct ≠ [] then (body.reverse ++ punct.reverse) :: sentAux rest [c] []
      else sentAux rest (c :: body) []

/-- Global matches of the sentence regex on a character list. -/
def matchSentenceUnits (l : List Char) : List (List Char) :=
  sentAux l [] []

/-- The sentence list used by `chunkText`: regex matches, or the whole cleaned
text as a single unit when the regex finds no match. -/
def splitSentences (s : String) : List String :=
  match matchSentenceUnits s.data with
  | [] => [s]
  | ms => ms.map fun l => (⟨l⟩ : String)

/-! ## DocumentProcessor: chunkText -/

/-- Running state of the chunk-accumulation loop in `chunkText`. -/
structure ChunkState where
  chunks : List String
  cur : String
deriving DecidableEq, Repr

/-- The overlap seeding performed when a chunk is closed: join the trailing
`chunkOverlap / 5` space-separated words of the closed buffer and put the new
sentence after them. -/
def overlapSeed (chunkOverlap : Nat) (cur sentence : String) : String :=
  let words := jsSplitChar ' ' cur.data
  let overlapWords := jsSliceLast (chunkOverlap / 5) words
  (⟨joinChar ' ' overlapWords⟩ : String) ++ " " ++ sentence

/-- One iteration of the sentence loop in `chunkText`. -/
def chunkStep (chunkSize chunkOverlap : Nat) (st : ChunkState) (sentence : String) :
    ChunkState :=
  if (st.cur ++ sentence).length > chunkSize ∧ st.cur.length > 0 then
    { chunks := st.chunks ++ [jsTrim st.cur],
      cur := overlapSeed chunkOverlap st.cur sentence }
  else
    { st with cur := st.cur ++ sentence }

/-- `DocumentProcessor.chunkText`: normalize, split into sentence units,
greedily accumulate into chunks with overlap seeding, flush the remainder. -/
def chunkText (chunkSize chunkOverlap : Nat) (text : String) : List String :=
  let cleanedText := normalizeText text
  let sentences := splitSentences cleanedText
  let final := sentences.foldl (chunkStep chunkSize chunkOverlap) ⟨[], ""⟩
  if (jsTrim final.cur).length > 0 then final.chunks ++ [jsTrim final.cur]
  else final.chunks

/-! ## DocumentProcessor: markdown splitting and processMarkdown -/

/-- Whether a line matches the markdown header regex: one to six hash marks
followed by a whitespace character. -/
def isHeaderLine (line : String) : Bool :=
  let hashes := line.data.takeWhile (fun c => c = '#')
  let rest := line.data.dropWhile (fun c => c = '#')
  1 ≤ hashes.length && hashes.length ≤ 6 &&
    (match rest with | c :: _ => jsIsWs c | [] => false)

/-- `DocumentProcessor.splitByMarkdownHeaders`: accumulate lines into sections,
starting a new section at each header line; trimmed nonempty sections are kept. -/
def splitByMarkdownHeaders (content : String) : List String :=
  let lines := (jsSplitChar '\n' content.data).map fun l => (⟨l⟩ : String)
  let fin := lines.foldl
    (fun (acc : List String × String) (line : String) =>
      if isHeaderLine line then
        ((if (jsTrim acc.2).length > 0 then acc.1 ++ [jsTrim acc.2] else acc.1),
         line ++ "\n")
      else (acc.1, acc.2 ++ line ++ "\n"))
    ([], "")
  if (jsTrim fin.2).length > 0 then fin.1 ++ [jsTrim fin.2] else fin.1

/-- Provenance metadata of a processed document chunk. -/
structure DocMetadata where
  source : String
  type : String
  chunkIndex : Option Nat
  totalChunks : Option Nat
deriving DecidableEq, Repr

/-- A chunk of a processed document together with its metadata. -/
structure ProcessedDocument where
  text : String
  metadata : DocMetadata
deriving DecidableEq, Repr

/-- `DocumentProcessor.processMarkdown` on file content already read from disk:
split into header sections, chunk oversized sections, and attach per-section
index arithmetic `chunkIndex = index * chunks.length + chunkIdx`,
`totalChunks = sections.length * chunks.length`. -/
def processMarkdown (chunkSize chunkOverlap : Nat) (fileName content : String) :
    List ProcessedDocument :=
  let sections := splitByMarkdownHeaders content
  (sections.enum.map (fun p =>
    let index := p.1
    let sec := p.2
    let chunks :=
      if sec.length > chunkSize then chunkText chunkSize chunkOverlap sec
      else [sec]
    chunks.enum.map (fun q =>
      { text := q.2,
        metadata :=
          { source := fileName, type := "markdown",
            chunkIndex := some (index * chunks.length + q.1),
            totalChunks := some (sections.length * chunks.length) } }))).flatten

/-! ## Structured content data model (src/types/content.ts, fields used by the
RAG service; fields the service branches on for presence are `Option`) -/

/-- A project entry of the structured content. -/
structure AppItem where
  id : String
  title : String
  shortDescription : String
  tech : List String
  role : String
  dateRange : String
  thumbnail : String
  myContribution : String
deriving DecidableEq, Repr

/-- An education entry of the structured content. -/
structure EducationItem where
  id : String
  institution : String
  program : String
  degreeLevel : String
  period : String
  thumbnail : String
  courses : List String
deriving DecidableEq, Repr

/-- A work-experience entry of the structured content. -/
structure ExperienceItem where
  id : String
  company : String
  role : String
  period : String
  thumbnail : String
  tags : Option (List String)
  responsibilities : Option (List String)
  impact : Option (List (String × String))
  stack : Option (List String)
deriving DecidableEq, Repr

/-- Contact block of the about section. -/
structure ContactData where
  email : String
  github : String
  linkedin : String
  phone : String
deriving DecidableEq, Repr

/-- The about section: bio, skills by category, contact. -/
structure AboutData where
  headline : String
  bio : String
  photo : String
  skills : List (String × List String)
  contact : ContactData
deriving DecidableEq, Repr

/-- The whole structured content consumed by the RAG service. -/
structure ContentData where
  apps : List AppItem
  education : List EducationItem
  experience : List ExperienceItem
  about : AboutData
deriving DecidableEq, Repr

/-! ## RAGService: fallback context selector -/

/-- The context line rendered for one experience entry in the fallback selector. -/
def expLine (exp : ExperienceItem) : String :=
  let impactText := match exp.impact with
    | some kvs =>
        " Impact: " ++ String.intercalate ", " (kvs.map fun kv => kv.1 ++ ": " ++ kv.2)
    | none => ""
  let tagsText := match exp.tags with
    | some ts => " Tags: " ++ String.intercalate ", " ts
    | none => ""
  let responsibilitiesText := match exp.responsibilities with
    | some rs => String.intercalate " " rs
    | none => ""
  let stackText := match exp.stack with
    | some st => String.intercalate ", " st
    | none => ""
  exp.role ++ " at " ++ exp.company ++ " (" ++ exp.period ++ ")" ++ tagsText ++ ". " ++
    responsibilitiesText ++ " Tech Stack: " ++ stackText ++ "." ++ impactText

/-- The context line rendered for one project entry in the fallback selector. -/
def appLine (app : AppItem) : String :=
  "Project: " ++ app.title ++ " - " ++ app.shortDescription ++ ". Tech: " ++
    String.intercalate ", " app.tech ++ ". " ++ app.myContribution

/-- The context line rendered for one education entry in the fallback selector. -/
def eduLine (edu : EducationItem) : String :=
  "Education: " ++ edu.degreeLevel ++ " in " ++ edu.program ++ " from " ++
    edu.institution ++ " (" ++ edu.period ++ "). Courses: " ++
    String.intercalate ", " edu.courses ++ "."

/-- The skills context line of the fallback selector. -/
def skillsLine (about : AboutData) : String :=
  "Skills: " ++ String.intercalate ". "
    (about.skills.map fun p => p.1 ++ ": " ++ String.intercalate ", " p.2)

/-- The bidirectional normalized company-name test applied to each experience
entry when gathering `companyMatches`. -/
def companyTest (query : String) (exp : ExperienceItem) : Bool :=
  let companyLower := normAlnum (jsToLower exp.company)
  let queryNormalized := normAlnum (jsToLower query)
  jsIncludes queryNormalized companyLower || jsIncludes companyLower queryNormalized

/-- `RAGService.getFallbackContext`: assemble about/contact/skills lines, then
conditionally experience, project and education lines, and keep the first 10. -/
def getFallbackContext (content : ContentData) (query : String) : List String :=
  let queryLower := jsToLower query
  let contexts0 : List String := []
  let contexts1 := contexts0 ++ ["About Harishraj: " ++ content.about.bio]
  let contexts2 := contexts1 ++
    ["Contact: Email: " ++ content.about.contact.email ++ ", Phone: " ++
      content.about.contact.phone]
  let contexts3 := contexts2 ++
    ["LinkedIn: " ++ content.about.contact.linkedin ++ ", GitHub: " ++
      content.about.contact.github]
  let contexts4 := contexts3 ++ [skillsLine content.about]
  let companyMatches :=
    (content.experience.filter (companyTest query)).map (fun exp => exp.company)
  let contexts5 :=
    if jsIncludes queryLower "experience" || jsIncludes queryLower "work" ||
        jsIncludes queryLower "job" || jsIncludes queryLower "role" ||
        jsIncludes queryLower "position" || decide (companyMatches.length > 0) ||
        jsIncludes queryLower "summarize" || jsIncludes queryLower "tell me about" then
      contexts4 ++ content.experience.map expLine
    else contexts4
  let contexts6 :=
    if jsIncludes queryLower "project" || jsIncludes queryLower "built" ||
        jsIncludes queryLower "app" then
      contexts5 ++ content.apps.map appLine
    else contexts5
  let contexts7 :=
    if jsIncludes queryLower "education" || jsIncludes queryLower "degree" ||
        jsIncludes queryLower "university" then
      contexts6 ++ content.education.map eduLine
    else contexts6
  contexts7.take 10

/-! ## RAGService: vector search and query orchestration.
The OpenAI and Pinecone backends are modelled as response oracles; every
backend interaction performed by a run is recorded in a call trace. -/

/-- One backend call performed by the service. -/
inductive BackendCall where
  | embedCall (input : String)
  | vectorQueryCall (topK : Nat)
  | completionCall (model : String)
deriving DecidableEq, Repr

/-- Metadata of one vector-store match; the text field may be absent. -/
structure MatchMeta where
  text : Option String
deriving DecidableEq, Repr

/-- One vector-store match; the metadata object may be absent. -/
structure VectorMatch where
  metadata : Option MatchMeta
deriving DecidableEq, Repr

/-- Configuration environment of the service: which credentials are set
(a missing or empty environment variable counts as not set). -/
structure RAGEnv where
  openAIKeyPresent : Bool
  pineconeKeyPresent : Bool
deriving DecidableEq, Repr

/-- Response oracles for the three backends: embedding, vector index query,
and chat completion (which may return no message content). -/
structure Backends where
  embed : String → Except String (List Int)
  vectorQuery : List Int → Nat → Except String (List VectorMatch)
  complete : String → String → Except String (Option String)

/-- The truthiness filter `match.metadata && match.metadata.text` applied to
vector-store matches. -/
def matchKeep (m : VectorMatch) : Bool :=
  match m.metadata with
  | some meta =>
    match meta.text with
    | some t => decide (t ≠ "")
    | none => false
  | none => false

/-- The text extracted from a kept vector-store match. -/
def matchText (m : VectorMatch) : String :=
  match m.metadata with
  | some meta => meta.text.getD ""
  | none => ""

/-- The context strings extracted from vector-search results: matches with
truthy text metadata, mapped to that text. -/
def extractContexts (ms : List VectorMatch) : List String :=
  (ms.filter matchKeep).map matchText

/-- `RAGService.searchVectorStore`: fallback context when Pinecone is not
configured; otherwise embed the query and search, degrading to fallback
context when either backend call fails. Returns the context strings and the
trace of backend calls made. -/
def searchVectorStore (env : RAGEnv) (bk : Backends) (content : ContentData)
    (query : String) (topK : Nat) : List String × List BackendCall :=
  if env.pineconeKeyPresent = false then
    (getFallbackContext content query, [])
  else
    match bk.embed query with
    | .error _ => (getFallbackContext content query, [.embedCall query])
    | .ok vec =>
      match bk.vectorQuery vec topK with
      | .error _ =>
          (getFallbackContext content query, [.embedCall query, .vectorQueryCall topK])
      | .ok ms =>
          (extractContexts ms, [.embedCall query, .vectorQueryCall topK])

/-- A conversation role. -/
inductive Role where
  | user
  | assistant
deriving DecidableEq, Repr

/-- One conversation turn. -/
structure Message where
  role : Role
  content : String
deriving DecidableEq, Repr

/-- Display label of a role in the prompt history block. -/
def roleLabel : Role → String
  | .user => "User"
  | .assistant => "Assistant"

/-- The fixed persona and behavior preamble of the grounding prompt. -/
def promptPreamble : String :=
  "You are an AI assistant that represents Harishraj Udaya Bhaskar, an AI Software Engineer. Your role is to help recruiters and visitors learn about his background, skills, and experience.\n\nIMPORTANT GUIDELINES:\n- Be conversational, friendly, and professional\n- Answer only based on the provided context\n- If you don" ++ apos ++
  "t have information, politely say so and suggest they contact him directly\n- Keep responses concise (2-3 paragraphs max) unless asked for details\n- Use first-person perspective when discussing Harishraj (e.g., \"I have experience in...\")\n- Highlight his AI/ML expertise, recent projects, and impact metrics\n- Be enthusiastic about his work but remain humble\n\nCONTEXT ABOUT HARISHRAJ:\n"

/-- `RAGService.buildPrompt`: preamble, joined contexts, the last six history
turns (omitted when the history is empty), and the user question. -/
def buildPrompt (query : String) (contexts : List String) (history : List Message) :
    String :=
  let contextText := String.intercalate "\n\n" contexts
  let historyText :=
    if history.length > 0 then
      String.intercalate "\n"
        ((jsSliceLast 6 history).map fun m => roleLabel m.role ++ ": " ++ m.content)
    else ""
  promptPreamble ++ contextText ++ "\n\n" ++
    (if historyText ≠ "" then "CONVERSATION HISTORY:\n" ++ historyText ++ "\n" else "") ++
    "\nUSER QUESTION: " ++ query ++
    "\n\nPlease provide a helpful, accurate response based on the context above:"

/-- The fixed apology returned when no OpenAI API key is configured. -/
def apologyNotConfigured : String :=
  "I" ++ apos ++
  "m currently not configured properly. Please set up the OpenAI API key to enable the chatbot. In the meantime, feel free to explore the portfolio or reach out directly at uharishraj@gmail.com!"

/-- The fixed apology returned when a backend failure mentions an API key. -/
def apologyTrouble : String :=
  "I" ++ apos ++
  "m having trouble connecting to my AI backend. Please make sure the API keys are configured correctly. You can still reach out directly at uharishraj@gmail.com!"

/-- The fixed text substituted when the completion has no message content. -/
def sorryResponse : String := "Sorry, I could not generate a response."

/-- The fixed system message sent with every completion. -/
def systemMessage : String :=
  "You are a helpful AI assistant representing Harishraj Udaya Bhaskar."

/-- `RAGService.query`: guard on the OpenAI key, retrieve context, build the
grounding prompt, call the completion backend, and classify failures
(API-key failures become a fixed apology, others propagate). Returns the
outcome and the trace of backend calls made. -/
def ragQuery (env : RAGEnv) (bk : Backends) (content : ContentData)
    (userQuery : String) (history : List Message) :
    Except String String × List BackendCall :=
  if env.openAIKeyPresent = false then
    (.ok apologyNotConfigured, [])
  else
    let sv := searchVectorStore env bk content userQuery 5
    let prompt := buildPrompt userQuery sv.1 history
    match bk.complete systemMessage prompt with
    | .ok contentOpt =>
        (.ok (match contentOpt with
              | some t => if t = "" then sorryResponse else t
              | none => sorryResponse),
         sv.2 ++ [.completionCall "gpt-4o-mini"])
    | .error e =>
        (if jsIncludes e "API key" then .ok apologyTrouble else .error e,
         sv.2 ++ [.completionCall "gpt-4o-mini"])

/-! ## Specification-side decomposition of the fallback selector.
These definitions follow the specification's wording (always-included lines,
keyword conditions, assembly order, cap) and are compared with the
source-translated `getFallbackContext` in the theorems below. -/

/-- The context lines the selector always includes: bio, contact, links, skills. -/
def baseContexts (content : ContentData) : List String :=
  ["About Harishraj: " ++ content.about.bio,
   "Contact: Email: " ++ content.about.contact.email ++ ", Phone: " ++
     content.about.contact.phone,
   "LinkedIn: " ++ content.about.contact.linkedin ++ ", GitHub: " ++
     content.about.contact.github,
   skillsLine content.about]

/-- The experience keyword condition of the specification: the lower-cased
query contains one of the seven experience keywords. -/
def expKeywordCond (query : String) : Bool :=
  let queryLower := jsToLower query
  jsIncludes queryLower "experience" || jsIncludes queryLower "work" ||
    jsIncludes queryLower "job" || jsIncludes queryLower "role" ||
    jsIncludes queryLower "position" || jsIncludes queryLower "summarize" ||
    jsIncludes queryLower "tell me about"

/-- The full experience inclusion condition: a keyword match or a normalized
company-name match for some experience entry. -/
def expCond (content : ContentData) (query : String) : Bool :=
  expKeywordCond query || content.experience.any (companyTest query)

/-- The project keyword condition. -/
def projKeywordCond (query : String) : Bool :=
  let queryLower := jsToLower query
  jsIncludes queryLower "project" || jsIncludes queryLower "built" ||
    jsIncludes queryLower "app"

/-- The education keyword condition. -/
def eduKeywordCond (query : String) : Bool :=
  let queryLower := jsToLower query
  jsIncludes queryLower "education" || jsIncludes queryLower "degree" ||
    jsIncludes queryLower "university"

/-- The experience block of the assembled context list. -/
def expPart (content : ContentData) (query : String) : List String :=
  if expCond content query then content.experience.map expLine else []

/-- The project block of the assembled context list. -/
def projPart (content : ContentData) (query : String) : List String :=
  if projKeywordCond query then content.apps.map appLine else []

/-- The education block of the assembled context list. -/
def eduPart (content : ContentData) (query : String) : List String :=
  if eduKeywordCond query then content.education.map eduLine else []

/-- The whole assembled context list before the cap of ten. -/
def assembledContexts (content : ContentData) (query : String) : List String :=
  baseContexts content ++ expPart content query ++ projPart content query ++
    eduPart content query

/-! ## Chunk-size bound quantities for the chunking theorems -/

/-- Length of the longest sentence unit `chunkText` works with on a text. -/
def maxUnitLen (text : String) : Nat :=
  ((splitSentences (normalizeText text)).map String.length).foldr max 0

/-- The provable bound on the length of any chunk produced by `chunkText`
with `chunkOverlap ≥ 5`: either the configured chunk size, or an overlap
window of at most `chunkOverlap / 5` words (each no longer than
`max chunkSize maxUnitLen`), one space, and one sentence unit. -/
def chunkLenBound (chunkSize chunkOverlap : Nat) (text : String) : Nat :=
  max chunkSize
    ((chunkOverlap / 5) * (max chunkSize (maxUnitLen text) + 1) + 1 + maxUnitLen text)

/-- All words (space-separated fields) of a string are bounded in length. -/
def wordsBounded (m : Nat) (s : String) : Prop :=
  ∀ w ∈ jsSplitChar ' ' s.data, w.length ≤ m

/-- Adjacent chunks are linked by overlap seeding: each chunk but the last is
the trim of some buffer whose overlap seed with some sentence unit begins the
buffer of the following chunk. -/
def adjacentOverlap (co : Nat) (units : List String) (chunks : List String) : Prop :=
  ∀ i, i + 1 < chunks.length →
    ∃ buf u rest, chunks[i]? = some (jsTrim buf) ∧ u ∈ units ∧
      chunks[i + 1]? = some (jsTrim (overlapSeed co buf u ++ rest))

/-- Loop invariant of the chunk-accumulation fold: emitted chunks are linked by
overlap seeding, and the running buffer (when a chunk has been emitted) extends
the overlap seed of the last emitted chunk's closing buffer. -/
def chunkSeedInv (co : Nat) (units : List String) (st : ChunkState) : Prop :=
  adjacentOverlap co units st.chunks ∧
  (st.chunks = [] ∨ ∃ buf u rest, st.chunks.getLast? = some (jsTrim buf) ∧ u ∈ units ∧
    st.cur = overlapSeed co buf u ++ rest)

/-! ## Concrete sample data used by witnesses and counterexamples -/

/-- A sample experience entry. -/
def sampleExp : ExperienceItem :=
  { id := "e1", company := "Acme Corp", role := "Engineer", period := "2020",
    thumbnail := "t.png", tags := none, responsibilities := none,
    impact := none, stack := none }

/-- A sample structured content record with one experience entry. -/
def sampleContent : ContentData :=
  { apps := [], education := [], experience := [sampleExp],
    about := { headline := "h", bio := "Builds things", photo := "p.png",
               skills := [("ML", ["PyTorch"])],
               contact := { email := "a@b.c", github := "gh", linkedin := "li",
                            phone := "123" } } }

/-- An experience entry for a given company name. -/
def expFor (name : String) : ExperienceItem :=
  { id := name, company := name, role := "Engineer", period := "2020",
    thumbnail := "t.png", tags := none, responsibilities := none,
    impact := none, stack := none }

/-- A structured content record with seven experience entries. -/
def sevenExpContent : ContentData :=
  { sampleContent with
    experience := [expFor "Alpha", expFor "Beta", expFor "Gamma", expFor "Delta",
                   expFor "Epsilon", expFor "Zeta", expFor "Omega"] }

/-- Backends whose calls all fail. -/
def failingBackends : Backends :=
  { embed := fun _ => .error "backend down",
    vectorQuery := fun _ _ => .error "backend down",
    complete := fun _ _ => .error "backend down" }

/-- Backends whose vector search succeeds with zero matches. -/
def zeroMatchBackends : Backends :=
  { embed := fun _ => .ok [0],
    vectorQuery := fun _ _ => .ok [],
    complete := fun _ _ => .ok (some "answer") }

/-! ## Helper lemmas about the JavaScript-style primitives -/

/-- Length of `dropWhile` output never exceeds the input length. -/
theorem length_dropWhile_le (p : Char → Bool) (l : List Char) :
    (l.dropWhile p).length ≤ l.length := by
  induction l with
  | nil => simp [List.dropWhile]
  | cons c rest ih =>
    by_cases h : p c
    · simp [List.dropWhile, h]; omega
    · simp [List.dropWhile, h]

/-- Splitting never yields the empty list of fields. -/
theorem jsSplitChar_ne_nil (sep : Char) (l : List Char) : jsSplitChar sep l ≠ [] := by
  cases l with
  | nil => simp [jsSplitChar]
  | cons c rest =>
    simp only [jsSplitChar]
    split
    · simp
    · split <;> simp

/-- Every field of a split is no longer than the split input. -/
theorem mem_jsSplitChar_length_le (sep : Char) (l : List Char) (w : List Char)
    (hw : w ∈ jsSplitChar sep l) : w.length ≤ l.length := by
  induction l generalizing w with
  | nil => simp [jsSplitChar] at hw; simp [hw]
  | cons c rest ih =>
    simp only [jsSplitChar] at hw
    split at hw
    · rcases List.mem_cons.mp hw with h | h
      · simp [h]
      · exact Nat.le_succ_of_le (ih w h)
    · rename_i hne
      split at hw
      · rename_i heq
        exact absurd heq (jsSplitChar_ne_nil sep rest)
      · rename_i w0 ws heq
        rcases List.mem_cons.mp hw with h | h
        · subst h
          have : w0 ∈ jsSplitChar sep rest := by rw [heq]; exact List.mem_cons_self _ _
          simpa using Nat.succ_le_succ (ih w0 this)
        · have : w ∈ jsSplitChar sep rest := by rw [heq]; exact List.mem_cons_of_mem _ h
          exact Nat.le_succ_of_le (ih w this)

/-- A field of a split never contains the separator. -/
theorem mem_jsSplitChar_not_mem (sep : Char) (l : List Char) (w : List Char)
    (hw : w ∈ jsSplitChar sep l) : sep ∉ w := by
  induction l generalizing w with
  | nil => simp [jsSplitChar] at hw; simp [hw]
  | cons c rest ih =>
    simp only [jsSplitChar] at hw
    split at hw
    · rcases List.mem_cons.mp hw with h | h
      · simp [h]
      · exact ih w h
    · rename_i hne
      split at hw
      · rename_i heq
        exact absurd heq (jsSplitChar_ne_nil sep rest)
      · rename_i w0 ws heq
        rcases List.mem_cons.mp hw with h | h
        · subst h
          have hw0 : w0 ∈ jsSplitChar sep rest := by
            rw [heq]; exact List.mem_cons_self _ _
          intro hmem
          rcases List.mem_cons.mp hmem with h' | h'
          · exact hne h'.symm
          · exact ih w0 hw0 h'
        · have : w ∈ jsSplitChar sep rest := by rw [heq]; exact List.mem_cons_of_mem _ h
          exact ih w this

/-- Splitting distributes over an occurrence of the separator. -/
theorem jsSplitChar_append_sep (sep : Char) (x y : List Char) :
    jsSplitChar sep (x ++ sep :: y) = jsSplitChar sep x ++ jsSplitChar sep y := by
  induction x with
  | nil => simp [jsSplitChar]
  | cons c rest ih =>
    simp only [List.cons_append, jsSplitChar]
    by_cases h : c = sep
    · simp [h, ih]
    · simp only [h, if_false]
      cases hsplit : jsSplitChar sep rest with
      | nil => exact absurd hsplit (jsSplitChar_ne_nil sep rest)
      | cons w ws =>
        simp only [List.append_eq]
        rw [ih, hsplit]
        simp

/-- A list without the separator splits into itself as the single field. -/
theorem jsSplitChar_of_not_mem (sep : Char) (l : List Char) (h : sep ∉ l) :
    jsSplitChar sep l = [l] := by
  induction l with
  | nil => simp [jsSplitChar]
  | cons c rest ih =>
    have hc : ¬ c = sep := fun hc => h (hc ▸ List.mem_cons_self c rest)
    have hrest : sep ∉ rest := fun hr => h (List.mem_cons_of_mem _ hr)
    simp [jsSplitChar, hc, ih hrest]

/-- Joining fields that contain no separator and splitting again restores them. -/
theorem jsSplitChar_joinChar (sep : Char) (ws : List (List Char)) (hne : ws ≠ [])
    (hsep : ∀ w ∈ ws, sep ∉ w) : jsSplitChar sep (joinChar sep ws) = ws := by
  induction ws with
  | nil => exact absurd rfl hne
  | cons w rest ih =>
    cases rest with
    | nil =>
      simp only [joinChar]
      exact jsSplitChar_of_not_mem sep w (hsep w (List.mem_cons_self _ _))
    | cons w' rest' =>
      have hjoin : joinChar sep (w :: w' :: rest') = w ++ sep :: joinChar sep (w' :: rest') := rfl
      rw [hjoin, jsSplitChar_append_sep,
        jsSplitChar_of_not_mem sep w (hsep w (List.mem_cons_self _ _)),
        ih (by simp) (fun v hv => hsep v (List.mem_cons_of_mem _ hv))]
      simp

/-- Length bound for a join of bounded fields. -/
theorem joinChar_length_le (sep : Char) (ws : List (List Char)) (m : Nat)
    (hm : ∀ w ∈ ws, w.length ≤ m) : (joinChar sep ws).length ≤ ws.length * (m + 1) := by
  induction ws with
  | nil => simp [joinChar]
  | cons w rest ih =>
    cases rest with
    | nil =>
      have := hm w (List.mem_cons_self _ _)
      simp only [joinChar, List.length_cons, List.length_nil]
      omega
    | cons w' rest' =>
      have hw := hm w (List.mem_cons_self _ _)
      have hrest := ih (fun v hv => hm v (List.mem_cons_of_mem _ hv))
      have hjoin : joinChar sep (w :: w' :: rest') = w ++ sep :: joinChar sep (w' :: rest') := rfl
      rw [hjoin]
      have hstep : (rest'.length + 1 + 1) * (m + 1) = (rest'.length + 1) * (m + 1) + (m + 1) := by
        ring
      simp only [List.length_append, List.length_cons] at *
      omega

/-- Trimming never lengthens a list. -/
theorem trimChars_length_le (l : List Char) : (trimChars l).length ≤ l.length := by
  unfold trimChars
  have h1 := length_dropWhile_le jsIsWs l
  have h2 := length_dropWhile_le jsIsWs (l.dropWhile jsIsWs).reverse
  simp only [List.length_reverse] at *
  omega

/-- An element is below the running maximum of a list containing it. -/
theorem le_foldr_max (l : List Nat) (a b : Nat) (ha : a ∈ l) :
    a ≤ l.foldr max b := by
  induction l with
  | nil => cases ha
  | cons x rest ih =>
    rcases List.mem_cons.mp ha with h | h
    · subst h; exact Nat.le_max_left _ _
    · exact Nat.le_trans (ih h) (Nat.le_max_right _ _)

/-- If one list starts with another, the second's members occur in the first. -/
theorem listStartsWith_mem (needle l : List Char)
    (h : listStartsWith needle l = true) : ∀ c ∈ needle, c ∈ l := by
  induction needle generalizing l with
  | nil => simp
  | cons a as ih =>
    cases l with
    | nil => simp [listStartsWith] at h
    | cons b bs =>
      simp only [listStartsWith, Bool.and_eq_true, decide_eq_true_eq] at h
      intro c hc
      rcases List.mem_cons.mp hc with h' | h'
      · subst h'; rw [h.1]; exact List.mem_cons_self _ _
      · exact List.mem_cons_of_mem _ (ih bs h.2 c h')

/-- A contained segment's members occur in the containing list. -/
theorem listContainsSeg_mem (needle l : List Char)
    (h : listContainsSeg needle l = true) : ∀ c ∈ needle, c ∈ l := by
  induction l with
  | nil =>
    cases needle with
    | nil => simp
    | cons a as => simp [listContainsSeg, listStartsWith] at h
  | cons b bs ih =>
    simp only [listContainsSeg, Bool.or_eq_true] at h
    rcases h with h | h
    · exact listStartsWith_mem needle (b :: bs) h
    · exact fun c hc => List.mem_cons_of_mem _ (ih h c hc)

/-- The empty string is contained in every string. -/
theorem jsIncludes_empty (hay : String) : jsIncludes hay "" = true := by
  have : ("" : String).data = [] := rfl
  unfold jsIncludes
  rw [this]
  cases hd : hay.data with
  | nil => simp [listContainsSeg, listStartsWith]
  | cons c rest => simp [listContainsSeg, listStartsWith]

/-! ## Fallback selector: refinement against the specification decomposition -/

/-- Appending under a shared branch condition commutes with the branch. -/
theorem ite_append {c : Prop} [Decidable c] (l x : List String) :
    (if c then l ++ x else l) = l ++ (if c then x else []) := by
  split <;> simp

/-- Boolean or-chain rearrangement matching the source's condition order. -/
theorem or_rearrange (a b c d e f g h : Bool) :
    (a || b || c || d || e || h || f || g) = (a || b || c || d || e || f || g || h) := by
  cases a <;> cases b <;> cases c <;> cases d <;> cases e <;> cases f <;> cases g <;>
    cases h <;> rfl

/-- The nonemptiness test on `companyMatches` agrees with an existence test
over the experience entries. -/
theorem companyMatches_any (c : ContentData) (q : String) :
    decide (((c.experience.filter (companyTest q)).map (fun e => e.company)).length > 0)
      = c.experience.any (companyTest q) := by
  rw [Bool.eq_iff_iff, decide_eq_true_eq]
  simp only [List.length_map, List.length_pos, ne_eq, List.filter_eq_nil_iff,
    List.any_eq_true, not_forall]
  constructor
  · rintro ⟨x, hx, hpx⟩
    exact ⟨x, hx, by simpa using hpx⟩
  · rintro ⟨x, hx, hpx⟩
    exact ⟨x, hx, by simpa using hpx⟩

/-- The source-translated fallback selector equals the specification's
assembly (always-on lines, conditional blocks in order) capped at ten. -/
theorem getFallbackContext_spec (c : ContentData) (q : String) :
    getFallbackContext c q = (assembledContexts c q).take 10 := by
  simp only [getFallbackContext, assembledContexts, baseContexts, expPart, projPart,
    eduPart, expCond, expKeywordCond, projKeywordCond, eduKeywordCond,
    List.nil_append]
  rw [companyMatches_any, or_rearrange]
  rw [ite_append (l := _ ++ _), ite_append, ite_append]
  simp [List.append_assoc]

/-- The fallback context always contains the four always-on lines, hence is
never empty. -/
theorem getFallbackContext_ne_nil (c : ContentData) (q : String) :
    getFallbackContext c q ≠ [] := by
  rw [getFallbackContext_spec]
  intro hempty
  have hlen := congrArg List.length hempty
  simp only [List.length_take, assembledContexts, baseContexts, List.length_append,
    List.length_cons, List.length_nil] at hlen
  omega

/-- C4: when no OpenAI API key is configured, `query` returns the fixed
apology naming the direct-contact fallback and performs zero backend calls. -/
theorem credential_guard (env : RAGEnv) (bk : Backends) (content : ContentData)
    (q : String) (history : List Message) (hkey : env.openAIKeyPresent = false) :
    ragQuery env bk content q history = (.ok apologyNotConfigured, []) := by
  simp [ragQuery, hkey]

/-- Witness for C4 at a concrete environment, backends, query and history. -/
theorem credential_guard_witness :
    (RAGEnv.mk false true).openAIKeyPresent = false ∧
    ragQuery (RAGEnv.mk false true) failingBackends sampleContent "Tell me about him" [] =
      (.ok apologyNotConfigured, []) :=
  ⟨rfl, credential_guard (RAGEnv.mk false true) failingBackends sampleContent
    "Tell me about him" [] rfl⟩

/-- C9: the fallback selector is deterministic: identical query text and
identical structured content give identical ordered context lists; it is a
pure function with no backend access and no randomness. -/
theorem fallback_deterministic (c₁ c₂ : ContentData) (q₁ q₂ : String)
    (hc : c₁ = c₂) (hq : q₁ = q₂) :
    getFallbackContext c₁ q₁ = getFallbackContext c₂ q₂ := by
  rw [hc, hq]

/-- Witness for C9 at a concrete content and query. -/
theorem fallback_deterministic_witness :
    sampleContent = sampleContent ∧
    getFallbackContext sampleContent "experience" =
      getFallbackContext sampleContent "experience" :=
  ⟨rfl, fallback_deterministic sampleContent sampleContent "experience" "experience"
    rfl rfl⟩

/-- C8: the fallback context list has at most ten strings, and equals the
first ten strings of the assembly in order: about/contact/skills lines, then
experience, then projects, then education — truncation by position. -/
theorem fallback_cap_order (c : ContentData) (q : String) :
    (getFallbackContext c q).length ≤ 10 ∧
    getFallbackContext c q =
      (baseContexts c ++ expPart c q ++ projPart c q ++ eduPart c q).take 10 := by
  refine ⟨?_, getFallbackContext_spec c q⟩
  rw [getFallbackContext_spec]
  simp [List.length_take]

/-- C6 counterexample: with seven experience entries and the query
"experience" the inclusion condition holds, yet the seventh entry's context
string is not in the returned list (it falls beyond the cap of ten), so the
claimed "one context string per experience entry" fails as stated. -/
theorem experience_cap_cex :
    jsIncludes (jsToLower "experience") "experience" = true ∧
    expLine (expFor "Omega") ∉ getFallbackContext sevenExpContent "experience" := by
  constructor
  · decide
  · decide

/-- C6 (amended): the selector assembles one context string per experience
entry exactly when the lower-cased query contains one of the seven keywords
or the normalized query and some entry's normalized company name contain one
another; the returned list is that assembly capped at ten strings. -/
theorem experience_inclusion_condition (c : ContentData) (q : String) :
    expPart c q =
      (if expKeywordCond q = true ∨ ∃ e ∈ c.experience, companyTest q e = true then
        c.experience.map expLine
      else []) ∧
    getFallbackContext c q =
      (baseContexts c ++ expPart c q ++ projPart c q ++ eduPart c q).take 10 := by
  constructor
  · simp only [expPart, expCond, Bool.or_eq_true, List.any_eq_true]
  · exact getFallbackContext_spec c q

/-! ## Vector search: context-source dichotomy and degraded paths -/

/-- C1 counterexample: with a configured backend whose search succeeds with
zero matches, the search returns the empty context list and the (nonempty)
fallback context is not used — neither source supplies context, refuting the
claim that the fallback is invoked on zero matches. -/
theorem vector_zero_match_no_fallback_cex :
    (searchVectorStore (RAGEnv.mk true true) zeroMatchBackends sampleContent
      "hello" 5).1 = [] ∧
    getFallbackContext sampleContent "hello" ≠ [] :=
  ⟨rfl, getFallbackContext_ne_nil sampleContent "hello"⟩

/-- C1 (amended): the fallback supplies the context exactly in the
no-backend and backend-error cases (and is invoked by the search function
itself, not the orchestrator); a successful search supplies its own matches,
which may be the empty list (zero matches give empty context, not fallback);
the fallback list is never empty, so the two sources never coincide there. -/
theorem searchVectorStore_context_source (env : RAGEnv) (bk : Backends)
    (content : ContentData) (q : String) (k : Nat) :
    (env.pineconeKeyPresent = false →
      (searchVectorStore env bk content q k).1 = getFallbackContext content q) ∧
    (∀ e, env.pineconeKeyPresent = true → bk.embed q = .error e →
      (searchVectorStore env bk content q k).1 = getFallbackContext content q) ∧
    (∀ v e, env.pineconeKeyPresent = true → bk.embed q = .ok v →
      bk.vectorQuery v k = .error e →
      (searchVectorStore env bk content q k).1 = getFallbackContext content q) ∧
    (∀ v ms, env.pineconeKeyPresent = true → bk.embed q = .ok v →
      bk.vectorQuery v k = .ok ms →
      (searchVectorStore env bk content q k).1 = extractContexts ms) ∧
    getFallbackContext content q ≠ [] := by
  refine ⟨?_, ?_, ?_, ?_, getFallbackContext_ne_nil content q⟩
  · intro h
    simp [searchVectorStore, h]
  · intro e h he
    simp [searchVectorStore, h, he]
  · intro v e h hv he
    simp [searchVectorStore, h, hv, he]
  · intro v ms h hv hms
    simp [searchVectorStore, h, hv, hms]

/-- Witness for C1's amended statement at the zero-match success case. -/
theorem searchVectorStore_context_source_witness :
    (RAGEnv.mk true true).pineconeKeyPresent = true ∧
    zeroMatchBackends.embed "hello" = .ok [0] ∧
    zeroMatchBackends.vectorQuery [0] 5 = .ok [] ∧
    (searchVectorStore (RAGEnv.mk true true) zeroMatchBackends sampleContent
      "hello" 5).1 = extractContexts [] :=
  ⟨rfl, rfl, rfl,
    (searchVectorStore_context_source (RAGEnv.mk true true) zeroMatchBackends
      sampleContent "hello" 5).2.2.2.1 [0] [] rfl rfl rfl⟩

/-- C3 counterexample: with no configured vector backend, the search returns
the fallback context itself — a nonempty list — not the empty result list the
claim describes. -/
theorem searchVectorStore_unconfigured_fallback_cex :
    searchVectorStore (RAGEnv.mk true false) failingBackends sampleContent "hi" 5 =
      (getFallbackContext sampleContent "hi", []) ∧
    getFallbackContext sampleContent "hi" ≠ [] :=
  ⟨rfl, getFallbackContext_ne_nil sampleContent "hi"⟩

/-- C3 (amended): when no vector backend is configured, or the embedding or
search call fails, `searchVectorStore` returns the fallback context computed
by `getFallbackContext` (not an empty list), and no failure propagates: the
result is an ordinary value in every degraded case, with the recorded backend
calls as shown. -/
theorem searchVectorStore_degraded_paths (env : RAGEnv) (bk : Backends)
    (content : ContentData) (q : String) (k : Nat) :
    (env.pineconeKeyPresent = false →
      searchVectorStore env bk content q k = (getFallbackContext content q, [])) ∧
    (∀ e, env.pineconeKeyPresent = true → bk.embed q = .error e →
      searchVectorStore env bk content q k =
        (getFallbackContext content q, [.embedCall q])) ∧
    (∀ v e, env.pineconeKeyPresent = true → bk.embed q = .ok v →
      bk.vectorQuery v k = .error e →
      searchVectorStore env bk content q k =
        (getFallbackContext content q, [.embedCall q, .vectorQueryCall k])) := by
  refine ⟨?_, ?_, ?_⟩
  · intro h
    simp [searchVectorStore, h]
  · intro e h he
    simp [searchVectorStore, h, he]
  · intro v e h hv he
    simp [searchVectorStore, h, hv, he]

/-- Witness for C3's amended statement at the unconfigured-backend case. -/
theorem searchVectorStore_degraded_paths_witness :
    (RAGEnv.mk true false).pineconeKeyPresent = false ∧
    searchVectorStore (RAGEnv.mk true false) failingBackends sampleContent "hi" 5 =
      (getFallbackContext sampleContent "hi", []) :=
  ⟨rfl,
    (searchVectorStore_degraded_paths (RAGEnv.mk true false) failingBackends
      sampleContent "hi" 5).1 rfl⟩

/-! ## processMarkdown index arithmetic -/

/-- C2: evaluation of `processMarkdown` on a two-section markdown document in
which the first section splits into two chunks and the second into one. The
emitted `chunkIndex` values are 0, 1, 1 — duplicated, not contiguous — and the
`totalChunks` fields read 4, 4, 2 although 3 chunks are produced, exhibiting
the broken per-section formula `index * chunks.length + chunkIdx`. -/
theorem processMarkdown_duplicate_chunkIndex_eval :
    ((processMarkdown 5 5 "f.md" "# A\nbb. cc.\n# B\nd.").map
        (fun d => d.metadata.chunkIndex)) = [some 0, some 1, some 1] ∧
    ¬ ((processMarkdown 5 5 "f.md" "# A\nbb. cc.\n# B\nd.").map
        (fun d => d.metadata.chunkIndex)).Nodup ∧
    (processMarkdown 5 5 "f.md" "# A\nbb. cc.\n# B\nd.").length = 3 ∧
    ((processMarkdown 5 5 "f.md" "# A\nbb. cc.\n# B\nd.").map
        (fun d => d.metadata.totalChunks)) = [some 4, some 4, some 2] :=
  ⟨by decide, by decide, by decide, by decide⟩

/-! ## Queries with no alphanumeric characters -/

/-- A string whose lower-alphanumeric filtering is empty contains no needle
that has an alphanumeric character. -/
theorem jsIncludes_false_of_normAlnum_empty (s needle : String)
    (h : normAlnum s = "") (c : Char) (hc : c ∈ needle.data)
    (hca : isLowerAlnum c = true) : jsIncludes s needle = false := by
  rw [Bool.eq_false_iff]
  intro htrue
  have hmem := listContainsSeg_mem needle.data s.data htrue c hc
  have hdata : s.data.filter isLowerAlnum = [] := congrArg String.data h
  exact (List.filter_eq_nil_iff.mp hdata c hmem) hca

/-- C10 counterexample: the all-punctuation query "?!" makes the company test
succeed for all seven entries of the seven-entry content, yet the seventh
entry's context string is not in the returned list (it falls beyond the cap
of ten), so "includes all experience entries" fails as literally stated. -/
theorem empty_normalization_cap_cex :
    normAlnum (jsToLower "?!") = "" ∧
    companyTest "?!" (expFor "Omega") = true ∧
    expLine (expFor "Omega") ∉ getFallbackContext sevenExpContent "?!" :=
  ⟨by decide, by decide, by decide⟩

/-- C10 (amended): a query with no alphanumeric characters normalizes to the empty
string, so the bidirectional company test succeeds for every experience
entry; no experience keyword can occur in such a query, yet every experience
entry's context string is assembled. -/
theorem empty_normalization_includes_all_experience (c : ContentData) (q : String)
    (hq : normAlnum (jsToLower q) = "") :
    (∀ e ∈ c.experience, companyTest q e = true) ∧
    expKeywordCond q = false ∧
    ∀ e ∈ c.experience, expLine e ∈ assembledContexts c q := by
  have htest : ∀ e ∈ c.experience, companyTest q e = true := by
    intro e _
    simp only [companyTest]
    rw [hq]
    simp [jsIncludes_empty]
  have hkw : expKeywordCond q = false := by
    have h1 := jsIncludes_false_of_normAlnum_empty (jsToLower q) "experience" hq 'e'
      (by decide) (by decide)
    have h2 := jsIncludes_false_of_normAlnum_empty (jsToLower q) "work" hq 'w'
      (by decide) (by decide)
    have h3 := jsIncludes_false_of_normAlnum_empty (jsToLower q) "job" hq 'j'
      (by decide) (by decide)
    have h4 := jsIncludes_false_of_normAlnum_empty (jsToLower q) "role" hq 'r'
      (by decide) (by decide)
    have h5 := jsIncludes_false_of_normAlnum_empty (jsToLower q) "position" hq 'p'
      (by decide) (by decide)
    have h6 := jsIncludes_false_of_normAlnum_empty (jsToLower q) "summarize" hq 's'
      (by decide) (by decide)
    have h7 := jsIncludes_false_of_normAlnum_empty (jsToLower q) "tell me about" hq 't'
      (by decide) (by decide)
    simp [expKeywordCond, h1, h2, h3, h4, h5, h6, h7]
  refine ⟨htest, hkw, ?_⟩
  intro e he
  have hany : c.experience.any (companyTest q) = true :=
    List.any_eq_true.mpr ⟨e, he, htest e he⟩
  have hcond : expCond c q = true := by simp [expCond, hany]
  have hpart : expPart c q = c.experience.map expLine := by simp [expPart, hcond]
  simp only [assembledContexts, List.mem_append, hpart]
  exact Or.inl (Or.inl (Or.inr (List.mem_map.mpr ⟨e, he, rfl⟩)))

/-- Witness for C10 at the query "?!" and the sample content. -/
theorem empty_normalization_includes_all_experience_witness :
    normAlnum (jsToLower "?!") = "" ∧
    companyTest "?!" sampleExp = true ∧
    expKeywordCond "?!" = false ∧
    expLine sampleExp ∈ assembledContexts sampleContent "?!" := by
  have h := empty_normalization_includes_all_experience sampleContent "?!" (by decide)
  exact ⟨by decide, h.1 sampleExp (by decide), h.2.1, h.2.2 sampleExp (by decide)⟩

/-! ## Chunk length bound -/

/-- The trailing slice keeps at most `k` elements when `k` is positive. -/
theorem jsSliceLast_length_le {α : Type} (k : Nat) (hk : k ≠ 0) (l : List α) :
    (jsSliceLast k l).length ≤ k := by
  simp only [jsSliceLast, hk, if_false, List.length_drop]
  omega

/-- Members of the trailing slice are members of the list. -/
theorem mem_jsSliceLast {α : Type} (k : Nat) (l : List α) (w : α)
    (hw : w ∈ jsSliceLast k l) : w ∈ l := by
  unfold jsSliceLast at hw
  split at hw
  · exact hw
  · exact List.mem_of_mem_drop hw

/-- The trailing slice of a nonempty list is nonempty. -/
theorem jsSliceLast_ne_nil {α : Type} (k : Nat) (l : List α) (hl : l ≠ []) :
    jsSliceLast k l ≠ [] := by
  unfold jsSliceLast
  split
  · exact hl
  · intro hdrop
    have hlen := congrArg List.length hdrop
    have hpos : 0 < l.length := List.length_pos.mpr hl
    rename_i hk
    simp only [List.length_drop, List.length_nil] at hlen
    omega

/-- Character-list view of the overlap seed. -/
theorem overlapSeed_data (co : Nat) (cur s : String) :
    (overlapSeed co cur s).data =
      joinChar ' ' (jsSliceLast (co / 5) (jsSplitChar ' ' cur.data)) ++ ' ' :: s.data := by
  simp [overlapSeed, String.data_append]

/-- Length bound for the overlap seed when the closed buffer's words are
bounded: at most `chunkOverlap / 5` words, a space, and the new sentence. -/
theorem overlapSeed_length_le (co : Nat) (hco : 5 ≤ co) (cur s : String) (m : Nat)
    (hw : wordsBounded m cur) :
    (overlapSeed co cur s).length ≤ (co / 5) * (m + 1) + 1 + s.length := by
  have hk : co / 5 ≠ 0 := by
    have : 1 ≤ co / 5 := (Nat.one_le_div_iff (by norm_num)).mpr hco
    omega
  have hdata : (overlapSeed co cur s).length =
      (joinChar ' ' (jsSliceLast (co / 5) (jsSplitChar ' ' cur.data))).length + 1 +
        s.data.length := by
    show (overlapSeed co cur s).data.length = _
    rw [overlapSeed_data]
    simp [List.length_append]
    omega
  have hjoin : (joinChar ' ' (jsSliceLast (co / 5) (jsSplitChar ' ' cur.data))).length ≤
      (co / 5) * (m + 1) := by
    have hmem : ∀ w ∈ jsSliceLast (co / 5) (jsSplitChar ' ' cur.data), w.length ≤ m :=
      fun w hmem => hw w (mem_jsSliceLast _ _ w hmem)
    have hlen := jsSliceLast_length_le (co / 5) hk (jsSplitChar ' ' cur.data)
    calc (joinChar ' ' (jsSliceLast (co / 5) (jsSplitChar ' ' cur.data))).length
        ≤ (jsSliceLast (co / 5) (jsSplitChar ' ' cur.data)).length * (m + 1) :=
          joinChar_length_le ' ' _ m hmem
      _ ≤ (co / 5) * (m + 1) := Nat.mul_le_mul_right (m + 1) hlen
  have hsl : s.data.length = s.length := rfl
  omega

/-- The overlap seed's words stay bounded when the buffer's words and the new
sentence are bounded. -/
theorem overlapSeed_wordsBounded (co : Nat) (cur s : String) (m : Nat)
    (hw : wordsBounded m cur) (hs : s.length ≤ m) :
    wordsBounded m (overlapSeed co cur s) := by
  intro w hmem
  rw [overlapSeed_data, jsSplitChar_append_sep] at hmem
  have hslice_ne : jsSliceLast (co / 5) (jsSplitChar ' ' cur.data) ≠ [] :=
    jsSliceLast_ne_nil _ _ (jsSplitChar_ne_nil ' ' cur.data)
  have hnosep : ∀ v ∈ jsSliceLast (co / 5) (jsSplitChar ' ' cur.data), ' ' ∉ v :=
    fun v hv => mem_jsSplitChar_not_mem ' ' cur.data v (mem_jsSliceLast _ _ v hv)
  rw [jsSplitChar_joinChar ' ' _ hslice_ne hnosep] at hmem
  rcases List.mem_append.mp hmem with h | h
  · exact hw w (mem_jsSliceLast _ _ w h)
  · exact Nat.le_trans (mem_jsSplitChar_length_le ' ' s.data w h) hs

/-- The chunk-accumulation step preserves: all emitted chunks bounded by the
chunk length bound, buffer words bounded by `max chunkSize U`, and the buffer
itself bounded by the chunk length bound. -/
theorem chunkStep_bound_inv (cs co : Nat) (hco : 5 ≤ co) (U : Nat)
    (st : ChunkState) (s : String) (hs : s.length ≤ U)
    (h1 : ∀ c ∈ st.chunks, c.length ≤ max cs ((co / 5) * (max cs U + 1) + 1 + U))
    (h2 : wordsBounded (max cs U) st.cur)
    (h3 : st.cur.length ≤ max cs ((co / 5) * (max cs U + 1) + 1 + U)) :
    (∀ c ∈ (chunkStep cs co st s).chunks,
        c.length ≤ max cs ((co / 5) * (max cs U + 1) + 1 + U)) ∧
    wordsBounded (max cs U) (chunkStep cs co st s).cur ∧
    (chunkStep cs co st s).cur.length ≤ max cs ((co / 5) * (max cs U + 1) + 1 + U) := by
  have hUM : U ≤ max cs U := Nat.le_max_right cs U
  have hBr : (co / 5) * (max cs U + 1) + 1 + U ≤
      max cs ((co / 5) * (max cs U + 1) + 1 + U) := Nat.le_max_right _ _
  unfold chunkStep
  split
  · rename_i hcond
    dsimp only
    refine ⟨?_, ?_, ?_⟩
    · intro c hc
      rcases List.mem_append.mp hc with h | h
      · exact h1 c h
      · have hc' : c = jsTrim st.cur := by simpa using h
        subst hc'
        have : (jsTrim st.cur).length ≤ st.cur.length := trimChars_length_le st.cur.data
        omega
    · exact overlapSeed_wordsBounded co st.cur s (max cs U) h2 (Nat.le_trans hs hUM)
    · have hseed := overlapSeed_length_le co hco st.cur s (max cs U) h2
      have hstep : (co / 5) * (max cs U + 1) + 1 + s.length ≤
          (co / 5) * (max cs U + 1) + 1 + U := by omega
      exact Nat.le_trans (Nat.le_trans hseed hstep) hBr
  · rename_i hcond
    rw [Decidable.not_and_iff_or_not] at hcond
    dsimp only
    refine ⟨h1, ?_, ?_⟩
    · intro w hw
      rcases hcond with h | h
      · have hlen : (st.cur ++ s).length ≤ cs := by omega
        have hmem := mem_jsSplitChar_length_le ' ' (st.cur ++ s).data w hw
        have hdl : (st.cur ++ s).data.length = (st.cur ++ s).length := rfl
        exact Nat.le_trans (by omega) (Nat.le_max_left cs U)
      · have hz : st.cur.data.length = 0 := by
          have hz0 : st.cur.length = 0 := by omega
          exact hz0
        have hnil : st.cur.data = [] := List.length_eq_zero.mp hz
        have hdata : (st.cur ++ s).data = s.data := by
          rw [String.data_append, hnil]
          simp
        rw [hdata] at hw
        have hmem := mem_jsSplitChar_length_le ' ' s.data w hw
        have hsl : s.data.length = s.length := rfl
        exact Nat.le_trans (by omega) hUM
    · rcases hcond with h | h
      · have hlen : (st.cur ++ s).length ≤ cs := by omega
        exact Nat.le_trans hlen (Nat.le_max_left cs _)
      · have hz : st.cur.data.length = 0 := by
          have hz0 : st.cur.length = 0 := by omega
          exact hz0
        have hnil : st.cur.data = [] := List.length_eq_zero.mp hz
        have hdata : (st.cur ++ s).length = s.length := by
          show (st.cur ++ s).data.length = s.data.length
          rw [String.data_append, hnil]
          simp
        rw [hdata]
        have hUB : U ≤ (co / 5) * (max cs U + 1) + 1 + U := by omega
        exact Nat.le_trans hs (Nat.le_trans hUB hBr)

/-- Folding the chunk-accumulation step over bounded sentences preserves the
bound invariant. -/
theorem chunkFold_bound_inv (cs co : Nat) (hco : 5 ≤ co) (U : Nat)
    (sentences : List String) (hU : ∀ s ∈ sentences, s.length ≤ U) :
    ∀ st : ChunkState,
      (∀ c ∈ st.chunks, c.length ≤ max cs ((co / 5) * (max cs U + 1) + 1 + U)) →
      wordsBounded (max cs U) st.cur →
      st.cur.length ≤ max cs ((co / 5) * (max cs U + 1) + 1 + U) →
      (∀ c ∈ (sentences.foldl (chunkStep cs co) st).chunks,
          c.length ≤ max cs ((co / 5) * (max cs U + 1) + 1 + U)) ∧
      wordsBounded (max cs U) (sentences.foldl (chunkStep cs co) st).cur ∧
      (sentences.foldl (chunkStep cs co) st).cur.length ≤
        max cs ((co / 5) * (max cs U + 1) + 1 + U) := by
  induction sentences with
  | nil => intro st hA hB hC; exact ⟨hA, hB, hC⟩
  | cons s rest ih =>
    intro st hA hB hC
    have hstep := chunkStep_bound_inv cs co hco U st s
      (hU s (List.mem_cons_self _ _)) hA hB hC
    exact ih (fun v hv => hU v (List.mem_cons_of_mem _ hv)) (chunkStep cs co st s)
      hstep.1 hstep.2.1 hstep.2.2

/-- C5 (amended): with `chunkOverlap ≥ 5` every produced chunk (including the
trailing remainder) has length at most `chunkLenBound`: the configured chunk
size, or an overlap window of at most `chunkOverlap / 5` words of length at
most `max chunkSize maxUnitLen` each, one space, and one sentence unit. A
single sentence unit longer than `chunkSize` can push a non-final chunk past
`chunkSize + overlap length` (see the counterexample), but never past this
bound. -/
theorem chunk_length_bound (cs co : Nat) (text : String) (hco : 5 ≤ co)
    (c : String) (hc : c ∈ chunkText cs co text) :
    c.length ≤ chunkLenBound cs co text := by
  unfold chunkText at hc
  set U := maxUnitLen text with hU_def
  have hU : ∀ s ∈ splitSentences (normalizeText text), s.length ≤ U := by
    intro s hs
    exact le_foldr_max _ _ 0 (List.mem_map.mpr ⟨s, hs, rfl⟩)
  have hinit1 : ∀ d ∈ ([] : List String),
      d.length ≤ max cs ((co / 5) * (max cs U + 1) + 1 + U) := by simp
  have hinit2 : wordsBounded (max cs U) "" := by
    intro w hw
    have hsplit : jsSplitChar ' ' ("" : String).data = [[]] := rfl
    rw [hsplit] at hw
    have hwnil : w = [] := by simpa using hw
    simp [hwnil]
  have hinit3 : ("" : String).length ≤ max cs ((co / 5) * (max cs U + 1) + 1 + U) := by
    have hz : ("" : String).length = 0 := rfl
    omega
  have hfold := chunkFold_bound_inv cs co hco U
    (splitSentences (normalizeText text)) hU ⟨[], ""⟩ hinit1 hinit2 hinit3
  simp only at hc
  split at hc
  · rcases List.mem_append.mp hc with h | h
    · exact hfold.1 c h
    · have hc' : c = jsTrim (List.foldl (chunkStep cs co)
          ⟨[], ""⟩ (splitSentences (normalizeText text))).cur := by simpa using h
      subst hc'
      have htrim := trimChars_length_le (List.foldl (chunkStep cs co)
          ⟨[], ""⟩ (splitSentences (normalizeText text))).cur.data
      have := hfold.2.2
      unfold chunkLenBound
      rw [← hU_def]
      have hlen : (jsTrim (List.foldl (chunkStep cs co)
          ⟨[], ""⟩ (splitSentences (normalizeText text))).cur).length ≤
          (List.foldl (chunkStep cs co)
            ⟨[], ""⟩ (splitSentences (normalizeText text))).cur.length := htrim
      omega
  · have := hfold.1 c hc
    unfold chunkLenBound
    rw [← hU_def]
    exact this

/-- Witness for C5's amended bound at a concrete configuration and text. -/
theorem chunk_length_bound_witness :
    (5 ≤ 5 ∧ "Hi. Yo." ∈ chunkText 10 5 "Hi. Yo.") ∧
    ("Hi. Yo." : String).length ≤ chunkLenBound 10 5 "Hi. Yo." :=
  ⟨⟨by decide, by decide⟩,
    chunk_length_bound 10 5 "Hi. Yo." (by decide) "Hi. Yo." (by decide)⟩

/-- C5 counterexample: with `chunkSize = 10` a single oversized sentence unit
becomes a non-final chunk of length 25: it exceeds `chunkSize` although, as
the first chunk, it contains no injected overlap words at all, refuting the
claimed bound `chunkSize + overlapWordsLength`. -/
theorem chunk_bound_cex :
    chunkText 10 5 "aaaaaaaaaaaaaaaaaaaaaaaa. b." =
      ["aaaaaaaaaaaaaaaaaaaaaaaa.", "aaaaaaaaaaaaaaaaaaaaaaaa.  b."] ∧
    ("aaaaaaaaaaaaaaaaaaaaaaaa." : String).length = 25 ∧ 25 > 10 + 0 :=
  ⟨by decide, by decide, by decide⟩

/-! ## Overlap seeding between consecutive chunks -/

/-- Pushing the trimmed buffer preserves the adjacency relation, with the new
final pair supplied by the buffer-seeding half of the invariant. -/
theorem adjacentOverlap_push (co : Nat) (units : List String) (st : ChunkState)
    (hinv : chunkSeedInv co units st) :
    adjacentOverlap co units (st.chunks ++ [jsTrim st.cur]) := by
  intro i hi
  simp only [List.length_append, List.length_cons, List.length_nil] at hi
  by_cases hlt : i + 1 < st.chunks.length
  · obtain ⟨buf, u, rest, h1, h2, h3⟩ := hinv.1 i hlt
    refine ⟨buf, u, rest, ?_, h2, ?_⟩
    · rw [List.getElem?_append, if_pos (by omega)]
      exact h1
    · rw [List.getElem?_append, if_pos hlt]
      exact h3
  · have hi1 : i + 1 = st.chunks.length := by omega
    have hne : st.chunks ≠ [] := by
      intro h
      rw [h] at hi1
      simp at hi1
    rcases hinv.2 with h | ⟨buf, u, rest, h1, h2, h3⟩
    · exact absurd h hne
    refine ⟨buf, u, rest, ?_, h2, ?_⟩
    · rw [List.getElem?_append, if_pos (by omega)]
      rw [List.getLast?_eq_getElem? st.chunks] at h1
      have hidx : st.chunks.length - 1 = i := by omega
      rw [hidx] at h1
      exact h1
    · have hcat : (st.chunks ++ [jsTrim st.cur])[st.chunks.length]? =
          some (jsTrim st.cur) := by simp
      rw [← hi1] at hcat
      rw [hcat, h3]

/-- One chunk-accumulation step preserves the overlap-seeding invariant. -/
theorem chunkStep_seedInv (cs co : Nat) (units : List String) (st : ChunkState)
    (s : String) (hs : s ∈ units) (hinv : chunkSeedInv co units st) :
    chunkSeedInv co units (chunkStep cs co st s) := by
  unfold chunkStep
  split
  · refine ⟨?_, ?_⟩
    · dsimp only
      exact adjacentOverlap_push co units st hinv
    · dsimp only
      right
      exact ⟨st.cur, s, "", by simp, hs, (String.append_empty _).symm⟩
  · refine ⟨hinv.1, ?_⟩
    rcases hinv.2 with h | ⟨buf, u, rest, h1, h2, h3⟩
    · left
      exact h
    · right
      exact ⟨buf, u, rest ++ s, h1, h2, by
        dsimp only
        rw [h3, String.append_assoc]⟩

/-- Folding the chunk-accumulation step preserves the overlap-seeding
invariant. -/
theorem chunkFold_seedInv (cs co : Nat) (units : List String) (l : List String)
    (hl : ∀ s ∈ l, s ∈ units) :
    ∀ st : ChunkState, chunkSeedInv co units st →
      chunkSeedInv co units (l.foldl (chunkStep cs co) st) := by
  induction l with
  | nil => intro st h; exact h
  | cons s rest ih =>
    intro st h
    exact ih (fun v hv => hl v (List.mem_cons_of_mem _ hv)) (chunkStep cs co st s)
      (chunkStep_seedInv cs co units st s (hl s (List.mem_cons_self _ _)) h)

/-- C7 (amended): every chunk but the first is the trim of a buffer that
begins with the overlap seed of the previous chunk's closing buffer — the
join of the trailing `chunkOverlap / 5` space-separated words of that closing
buffer, a space, and the sentence unit that triggered the close — possibly
followed by further appended sentence units; the previous chunk is the trim
of that closing buffer. The emitted text is the trim of this buffer, so a
leading space in the overlap join does not survive verbatim (see the
counterexample against the literal begins-with reading). -/
theorem chunk_overlap_seeding (cs co : Nat) (text : String) :
    adjacentOverlap co (splitSentences (normalizeText text))
      (chunkText cs co text) := by
  have hinit : chunkSeedInv co (splitSentences (normalizeText text))
      (ChunkState.mk [] "") := by
    refine ⟨?_, Or.inl rfl⟩
    intro i hi
    simp at hi
  have hfold := chunkFold_seedInv cs co (splitSentences (normalizeText text))
    (splitSentences (normalizeText text)) (fun s hs => hs)
    (ChunkState.mk [] "") hinit
  unfold chunkText
  simp only
  split
  · exact adjacentOverlap_push co _ _ hfold
  · exact hfold.1

/-- Witness for C7's amended statement: adjacent chunks of a concrete run. -/
theorem chunk_overlap_seeding_witness :
    0 + 1 < (chunkText 3 10 "A. B. C.").length ∧
    ∃ buf u rest, (chunkText 3 10 "A. B. C.")[0]? = some (jsTrim buf) ∧
      u ∈ splitSentences (normalizeText "A. B. C.") ∧
      (chunkText 3 10 "A. B. C.")[0 + 1]? =
        some (jsTrim (overlapSeed 10 buf u ++ rest)) :=
  ⟨by decide, chunk_overlap_seeding 3 10 "A. B. C." 0 (by decide)⟩

/-- C7 counterexample: on "A. B. C." with `chunkSize = 3`, `chunkOverlap = 10`
the second chunk closes with buffer "A.  B." and incoming unit " C.", whose
overlap seed is " B.  C." (the trailing two words of the buffer under a
single-space split are "" and "B."); the next emitted chunk is the trimmed
"B.  C.", which does not begin with that seed, refuting the literal claim
that the next chunk's text starts with the overlap words followed by the
unit. -/
theorem chunk_overlap_seeding_cex :
    chunkText 3 10 "A. B. C." = ["A.", "A.  B.", "B.  C."] ∧
    overlapSeed 10 "A.  B." " C." = " B.  C." ∧
    listStartsWith (" B.  C." : String).data ("B.  C." : String).data = false :=
  ⟨by decide, by decide, by decide⟩

end Portfolio
